import Mathlib

/-!
Verification of the text-splitting and markup-generation core of `csnap.py`.

Texts are modelled as `List Char` (Python `str`), Python integer results of
`str.find` as `Int` (with `-1` for "not found"), and the lazy generator
`split_big_snippet` as a fuel-indexed loop over an explicit state, so that
nontermination of the Python generator is observable as "no amount of fuel
finishes the loop".
-/

namespace Csnap

/-- Python `s.find(pat, start)` for `start ≥ 0`: smallest index `j ≥ start`
at which `pat` occurs in `s`, and `-1` when there is none (in particular when
`start > s.length`). -/
def pyFind (s pat : List Char) (start : Nat) : Int :=
  match (List.range (s.length + 1)).find?
      (fun j => decide (start ≤ j) && pat.isPrefixOf (s.drop j)) with
  | some j => (j : Int)
  | none => -1

/-- Python slice `s[a:b]` for `0 ≤ a, b` (empty when `b ≤ a`). -/
def pySlice (s : List Char) (a b : Nat) : List Char :=
  (s.drop a).take (b - a)

/-- The loop state of `split_big_snippet` (src/csnap.py lines 246-248):
`i` counts scanned lines since the last reset, `r0` is the start of the
pending chunk, `r` is the current scan position (`-1` once exhausted). -/
structure SplitState where
  i : Nat
  r0 : Nat
  r : Int
  deriving DecidableEq, Repr

/-- One iteration of the `while r != -1` loop body of `split_big_snippet`
(src/csnap.py lines 249-259), returning the chunks yielded during this
iteration and the updated state.  Note that when the newline scan has
returned `-1`, the marker search `text.find(split_at, r + 1)` starts from
index `0`, exactly as in the Python source. -/
def splitBody (text split_at : List Char) (max_lineno_split : Nat)
    (s : SplitState) : List (List Char) × SplitState :=
  let r1 : Int := pyFind text ['\n'] (s.r + 1).toNat
  let i1 : Nat := s.i + 1
  let step :=
    if max_lineno_split ≤ i1 + 1 then
      let rf : Int := pyFind text split_at (r1 + 1).toNat
      if 0 ≤ rf then ([pySlice text s.r0 rf.toNat], 0, rf.toNat, rf)
      else (([] : List (List Char)), 0, s.r0, rf)
    else (([] : List (List Char)), i1, s.r0, r1)
  let ys1 := step.1
  let i2 := step.2.1
  let r0₂ := step.2.2.1
  let r2 := step.2.2.2
  let ys2 := if r2 < 0 then [text.drop r0₂] else ([] : List (List Char))
  (ys1 ++ ys2, ⟨i2, r0₂, r2⟩)

/-- The `while r != -1` loop of `split_big_snippet`, run for at most `fuel`
iterations from state `s`.  The second component is `none` when the loop
has exited (the generator is exhausted) and `some s'` when fuel ran out
with the loop still pending at state `s'`. -/
def splitRun (text split_at : List Char) (max_lineno_split : Nat) :
    Nat → SplitState → List (List Char) × Option SplitState
  | 0, s => ([], some s)
  | fuel + 1, s =>
    if s.r = -1 then ([], none)
    else
      let b := splitBody text split_at max_lineno_split s
      let rest := splitRun text split_at max_lineno_split fuel b.2
      (b.1 ++ rest.1, rest.2)

/-- `split_big_snippet(text, max_lineno_split, split_at)` run with the given
fuel from its initial state `i = 0, r0 = 0, r = 0` (src/csnap.py 245-259). -/
def split_big_snippet (text split_at : List Char) (max_lineno_split fuel : Nat) :
    List (List Char) × Option SplitState :=
  splitRun text split_at max_lineno_split fuel ⟨0, 0, 0⟩

/-- The complete output of the generator when `fuel` iterations suffice for
the loop to exit; `none` when the generator is still unfinished. -/
def splitAll (text split_at : List Char) (max_lineno_split fuel : Nat) :
    Option (List (List Char)) :=
  match split_big_snippet text split_at max_lineno_split fuel with
  | (out, none) => some out
  | (_, some _) => none

/-- The generator `split_big_snippet text split_at max_lineno_split`
terminates and yields exactly the chunk list `out`. -/
def chunkerYields (text split_at : List Char) (max_lineno_split : Nat)
    (out : List (List Char)) : Prop :=
  ∃ fuel, splitAll text split_at max_lineno_split fuel = some out

/-- Worker for Python `s.replace(old, new)` (leftmost, non-overlapping):
while `skip` is positive the character belongs to an occurrence that was
just replaced and is dropped; at `skip = 0` a match of `old` emits `new`
and schedules the remaining `old.length - 1` matched characters for
dropping.  (For the empty pattern Python inserts `new` at every position;
that case is never used by csnap and `replTail` leaves `s` unchanged.) -/
def replTail (old new : List Char) : Nat → List Char → List Char
  | _, [] => []
  | 0, c :: rest =>
    if old ≠ [] ∧ old.isPrefixOf (c :: rest) then
      new ++ replTail old new (old.length - 1) rest
    else c :: replTail old new 0 rest
  | skip + 1, _ :: rest => replTail old new skip rest

/-- Python `s.replace(old, new)`. -/
def pyReplace (s old new : List Char) : List Char :=
  replTail old new 0 s

/-- `snippet.replace("&", "__AMP__").replace("<", "__LT__")`
(src/csnap.py line 284). -/
def escapeSentinels (s : List Char) : List Char :=
  pyReplace (pyReplace s "&".toList "__AMP__".toList) "<".toList "__LT__".toList

/-- `text.replace("__AMP__", "&amp;").replace("__LT__", "&lt;")`
(src/csnap.py line 311). -/
def unescapeSentinels (s : List Char) : List Char :=
  pyReplace (pyReplace s "__AMP__".toList "&amp;".toList) "__LT__".toList "&lt;".toList

/-- Decimal digits of `n` (worker with explicit fuel so that the kernel can
evaluate it; `n + 1` units of fuel always suffice). -/
def natDigitsAux : Nat → Nat → List Char
  | 0, _ => []
  | fuel + 1, n =>
    if n < 10 then [Char.ofNat (48 + n)]
    else natDigitsAux fuel (n / 10) ++ [Char.ofNat (48 + n % 10)]

/-- Decimal digits of `n`, e.g. `natDigits 105 = ['1','0','5']`. -/
def natDigits (n : Nat) : List Char :=
  natDigitsAux (n + 1) n

/-- Python `"% 5i" % n`: the decimal rendering of `n` with a leading space
for `n ≥ 0` (the `' '` flag) or a leading `-`, left-padded with spaces to
width 5. -/
def spacePad5 (n : Int) : List Char :=
  let core := if 0 ≤ n then ' ' :: natDigits n.toNat else '-' :: natDigits (-n).toNat
  List.replicate (5 - core.length) ' ' ++ core

/-- The stateful line counter `LineNum` (src/csnap.py lines 234-242); the
Python attribute `end` is called `end_` because `end` is reserved in Lean. -/
structure LineNum where
  begin : List Char
  end_ : List Char
  lineno : Int
  deriving DecidableEq, Repr

/-- `LineNum.next` (src/csnap.py lines 240-242): increment the counter, then
return `begin + ("% 5i " % lineno) + end` together with the new state. -/
def LineNum.next (l : LineNum) : List Char × LineNum :=
  let n := l.lineno + 1
  (l.begin ++ spacePad5 n ++ ' ' :: l.end_, ⟨l.begin, l.end_, n⟩)

/-- `k` sequential calls of `LineNum.next` on one counter object: the list
of returned strings, in call order, and the final state. -/
def iterNext (l : LineNum) : Nat → List (List Char) × LineNum
  | 0 => ([], l)
  | k + 1 =>
    let r := iterNext (LineNum.next l).2 k
    ((LineNum.next l).1 :: r.1, r.2)

/-- Python `text.split("\n")`: the (never empty) list of newline-separated
pieces, keeping empty pieces. -/
def pySplitLines : List Char → List (List Char)
  | [] => [[]]
  | c :: rest =>
    match pySplitLines rest with
    | [] => [[]]
    | p :: ps => if c = '\n' then [] :: p :: ps else (c :: p) :: ps

/-- The list comprehension
`"".join([line + "\n" + lnum.next() for line in text.split("\n")])`
of src/csnap.py lines 300-301, threading the counter state explicitly.
The third component records, in order, the line number of every
`lnum.next()` call made (the observation used to state monotonicity). -/
def annotateGo (l : LineNum) : List (List Char) → List Char × LineNum × List Int
  | [] => ([], l, [])
  | p :: ps =>
    let l1 := (LineNum.next l).2
    let r := annotateGo l1 ps
    (p ++ '\n' :: ((LineNum.next l).1 ++ r.1), r.2.1, l1.lineno :: r.2.2)

/-- The line-numbering step of `format_text` (src/csnap.py lines 299-304):
`text = lnum.next() + "".join([...] if "\n" in text else text)`.
Returns the annotated text, the updated counter and the trace of emitted
line numbers. -/
def annotateT (l : LineNum) (text : List Char) : List Char × LineNum × List Int :=
  if text.contains '\n' then
    let l0 := (LineNum.next l).2
    let r := annotateGo l0 (pySplitLines text)
    ((LineNum.next l).1 ++ r.1, r.2.1, l0.lineno :: r.2.2)
  else
    ((LineNum.next l).1 ++ text, (LineNum.next l).2, [((LineNum.next l).2).lineno])

/-- The title banner `title_str` of src/csnap.py lines 316-320. -/
def titleStr (color title : List Char) : List Char :=
  "<span fgcolor=\"".toList ++ color ++ "\">\n".toList
    ++ List.replicate 80 '=' ++ '\n' :: title
    ++ '\n' :: List.replicate 80 '=' ++ "\n</span>\n".toList

/-- The conditional banner prepend `if title: ... text = title_str + text`
of src/csnap.py lines 315-321 (`if title` is Python truthiness: a supplied
non-empty string). -/
def applyTitle (color : List Char) (title : Option (List Char))
    (text : List Char) : List Char :=
  match title with
  | some t => if t = [] then text else titleStr color t ++ text
  | none => text

/-- The tail of the per-snippet body of `format_text` (src/csnap.py lines
306-321), applied to the (annotated text, counter, trace) triple `a`: the
leading/trailing-newline collapse checks `text[0]`/`text[-1]` — which raise
`IndexError` on the empty string, modelled as `none` — the sentinel
unescape, the reassembly `begin + text + end` and the banner prepend. -/
def finishChunk (commentColor : List Char) (title : Option (List Char))
    (bgn fin : List Char) (a : List Char × LineNum × List Int) :
    Option (List Char × LineNum × List Int) :=
  if a.1 = [] then none
  else
    let bgn2 := if a.1.head? = some '\n' ∧ bgn = ['\n'] then [] else bgn
    let fin2 := if a.1.getLast? = some '\n' ∧ fin = ['\n'] then [] else fin
    some (applyTitle commentColor title (bgn2 ++ unescapeSentinels a.1 ++ fin2),
          a.2.1, a.2.2)

/-- The per-snippet body of `format_text` (src/csnap.py lines 280-323).
`hl` is the external highlighter `pygments.highlight (·, lx, PangoFormatter(style=st))`,
kept as a parameter.  The result is `none` exactly when the Python code
would raise `IndexError` at `text[0]`/`text[-1]` (lines 306-308, possible
only when the highlighter returns the empty string with `linenos` off);
otherwise it is the yielded markup, the updated line counter and the trace
of emitted line numbers. -/
def formatChunk (hl : List Char → List Char) (commentColor : List Char)
    (title : Option (List Char)) (linenos : Bool) (l : LineNum)
    (snippet : List Char) : Option (List Char × LineNum × List Int) :=
  let t0 := escapeSentinels snippet
  let bgn : List Char := if t0.take 1 = ['\n'] then ['\n'] else []
  let t1 := if t0.take 1 = ['\n'] then t0.drop 1 else t0
  let fin : List Char := if t1.drop (t1.length - 1) = ['\n'] then ['\n'] else []
  let t2 := if t1.drop (t1.length - 1) = ['\n'] then t1.dropLast else t1
  let t3 := hl t2
  let a := if linenos then annotateT l t3 else (t3, l, ([] : List Int))
  finishChunk commentColor title bgn fin a

/-- The chunk loop of `format_text` over an explicit list of snippets,
threading the line counter and collecting the yielded markup strings and
the concatenated trace of emitted line numbers. -/
def formatChunks (hl : List Char → List Char) (commentColor : List Char)
    (title : Option (List Char)) (linenos : Bool) :
    LineNum → List (List Char) → Option (List (List Char) × LineNum × List Int)
  | l, [] => some ([], l, [])
  | l, c :: cs =>
    match formatChunk hl commentColor title linenos l c with
    | none => none
    | some (t, l1, ns) =>
      match formatChunks hl commentColor title linenos l1 cs with
      | none => none
      | some (ts, l2, ms) => some (t :: ts, l2, ns ++ ms)

/-- `format_text` (src/csnap.py lines 262-323): split the input with
`split_big_snippet` (`fuel` bounds the generator as in `splitAll`), build
the `LineNum` with markup delimiters around the comment color and
`lineno = startline - 1`, and format every chunk in order.  Returns the
list of yielded markup strings and the trace of emitted line numbers. -/
def format_text (hl : List Char → List Char) (commentColor : List Char)
    (input : List Char) (title : Option (List Char)) (linenos : Bool)
    (startline : Int) (max_lineno_split : Nat) (split_at : List Char)
    (fuel : Nat) : Option (List (List Char) × List Int) :=
  match splitAll input split_at max_lineno_split fuel with
  | none => none
  | some chunks =>
    let lnum : LineNum :=
      ⟨"<span fgcolor=\"".toList ++ commentColor ++ "\">".toList,
       "</span>".toList, startline - 1⟩
    match formatChunks hl commentColor title linenos lnum chunks with
    | none => none
    | some (ts, _, ns) => some (ts, ns)

/-- A pygments token kind, as its path of name components listed leaf
first: `Token.Literal.String` is `["String", "Literal"]`, the root `Token`
is `[]`, and `parent` is `List.tail`. -/
abbrev Kind := List String

/-- A compiled style table `self.styles` of `PangoFormatter`: the pair of
open/close markup for the kinds that are registered. -/
abbrev Styles := Kind → Option (List Char × List Char)

/-- The resolution loop `while ttype not in self.styles: ttype = ttype.parent`
(src/csnap.py lines 55-56).  When no ancestor (the root included) is
registered the Python loop reaches `None.parent` and raises
`AttributeError`; that failure is `none`. -/
def resolve (styles : Styles) : Kind → Option Kind
  | [] => if (styles []).isSome then some [] else none
  | c :: ks => if (styles (c :: ks)).isSome then some (c :: ks) else resolve styles ks

namespace PangoFormatter

/-- The loop state of `PangoFormatter.format` (src/csnap.py lines 50-70):
output written so far, the pending run `lastval` and its resolved kind
`lasttype` (`none` initially, like Python's `None`). -/
structure FmtState where
  out : List Char
  lastval : List Char
  lasttype : Option Csnap.Kind
  deriving DecidableEq, Repr

/-- One iteration of the token loop of `PangoFormatter.format`
(src/csnap.py lines 54-66); `none` when style resolution fails. -/
def formatStep (styles : Styles) (s : FmtState) (tok : Kind × List Char) :
    Option FmtState :=
  match resolve styles tok.1 with
  | none => none
  | some t =>
    if s.lasttype = some t then
      some ⟨s.out, s.lastval ++ tok.2, s.lasttype⟩
    else if s.lastval ≠ [] then
      match s.lasttype.bind styles with
      | some (b, e) => some ⟨s.out ++ b ++ s.lastval ++ e, tok.2, some t⟩
      | none => none
    else
      some ⟨s.out, tok.2, some t⟩

/-- The token loop of `PangoFormatter.format`. -/
def formatFold (styles : Styles) : FmtState → List (Kind × List Char) → Option FmtState
  | s, [] => some s
  | s, tok :: toks =>
    match formatStep styles s tok with
    | none => none
    | some s1 => formatFold styles s1 toks

/-- The final flush of `PangoFormatter.format` (src/csnap.py lines 68-70). -/
def formatEnd (styles : Styles) (s : FmtState) : Option (List Char) :=
  if s.lastval ≠ [] then
    match s.lasttype.bind styles with
    | some (b, e) => some (s.out ++ b ++ s.lastval ++ e)
    | none => none
  else some s.out

/-- `PangoFormatter.format(tokensource, outfile)` (src/csnap.py lines
50-70): the markup written to `outfile`, or `none` when style resolution
raises. -/
def format (styles : Styles) (toks : List (Kind × List Char)) : Option (List Char) :=
  match formatFold styles ⟨[], [], none⟩ toks with
  | none => none
  | some s => formatEnd styles s

end PangoFormatter

/-- Modelled from the spec: the "zero-padded 5-digit line number" rendering
that claims C5 attributes to `LineNum.next` (for comparison with the
space-padded `spacePad5` the code actually uses). -/
def zeroPad5Spec (n : Nat) : List Char :=
  List.replicate (5 - (natDigits n).length) '0' ++ natDigits n

/-- Character-wise expansion: `expand f t` replaces every character `c` of
`t` by `f c` (used to describe the effect of the sentinel substitutions). -/
def expand (f : Char → List Char) : List Char → List Char
  | [] => []
  | c :: t => f c ++ expand f t

/-- Single-character sentinel substitution performed by `escapeSentinels`. -/
def escChar (c : Char) : List Char :=
  if c = '&' then "__AMP__".toList else if c = '<' then "__LT__".toList else [c]

/-- Intermediate substitution after the `__AMP__ → &amp;` pass. -/
def escChar1 (c : Char) : List Char :=
  if c = '&' then "&amp;".toList else if c = '<' then "__LT__".toList else [c]

/-- Modelled from the spec: the "proper markup-escaped forms" of claim C6,
`&` as `&amp;` and `<` as `&lt;`. -/
def escapedFormSpec (t : List Char) : List Char :=
  expand (fun c =>
    if c = '&' then "&amp;".toList else if c = '<' then "&lt;".toList else [c]) t

/-- `consecFrom a n = [a, a+1, ..., a+n-1]`. -/
def consecFrom (a : Int) : Nat → List Int
  | 0 => []
  | n + 1 => a :: consecFrom (a + 1) n

/-! ### Lemmas about the chunker -/

theorem splitRun_succ_of_done (text split_at : List Char) (m : Nat) :
    ∀ (fuel : Nat) (s : SplitState) (out : List (List Char)),
      splitRun text split_at m fuel s = (out, none) →
      splitRun text split_at m (fuel + 1) s = (out, none) := by
  intro fuel
  induction fuel with
  | zero =>
    intro s out h
    simp [splitRun] at h
  | succ f ih =>
    intro s out h
    rw [splitRun] at h ⊢
    by_cases hr : s.r = -1
    · rw [if_pos hr] at h ⊢; exact h
    · rw [if_neg hr] at h ⊢
      rcases hrest : splitRun text split_at m f (splitBody text split_at m s).2 with ⟨o1, r1⟩
      simp only [hrest] at h
      obtain ⟨h1, h2⟩ := Prod.mk.injEq .. ▸ h
      subst h2
      simp only [ih _ _ hrest]
      rw [h1]

theorem splitRun_mono (text split_at : List Char) (m : Nat)
    (f g : Nat) (hfg : f ≤ g) (s : SplitState) (out : List (List Char))
    (h : splitRun text split_at m f s = (out, none)) :
    splitRun text split_at m g s = (out, none) := by
  induction g with
  | zero => exact Nat.le_zero.mp hfg ▸ h
  | succ n ih =>
    rcases Nat.lt_or_ge f (n + 1) with hlt | hge
    · exact splitRun_succ_of_done text split_at m n s out (ih (Nat.lt_succ_iff.mp hlt))
    · exact Nat.le_antisymm hfg hge ▸ h

theorem splitAll_mono (text split_at : List Char) (m f g : Nat)
    (out : List (List Char)) (hfg : f ≤ g)
    (h : splitAll text split_at m f = some out) :
    splitAll text split_at m g = some out := by
  unfold splitAll split_big_snippet at h ⊢
  rcases hrun : splitRun text split_at m f ⟨0, 0, 0⟩ with ⟨o, r⟩
  rw [hrun] at h
  cases r with
  | none =>
    simp only at h
    obtain rfl : o = out := by injection h
    rw [splitRun_mono text split_at m f g hfg _ _ hrun]
  | some s => simp at h

theorem chunkerYields_unique (text split_at : List Char) (m : Nat)
    (o₁ o₂ : List (List Char)) (h₁ : chunkerYields text split_at m o₁)
    (h₂ : chunkerYields text split_at m o₂) : o₁ = o₂ := by
  obtain ⟨f₁, hf₁⟩ := h₁
  obtain ⟨f₂, hf₂⟩ := h₂
  have e₁ := splitAll_mono text split_at m f₁ (max f₁ f₂) o₁ (Nat.le_max_left _ _) hf₁
  have e₂ := splitAll_mono text split_at m f₂ (max f₁ f₂) o₂ (Nat.le_max_right _ _) hf₂
  rw [e₁] at e₂
  injection e₂

theorem isPrefixOf_nil_eq_false (sp : List Char) (h : sp ≠ []) :
    sp.isPrefixOf ([] : List Char) = false := by
  cases sp with
  | nil => exact absurd rfl h
  | cons c cs => rfl

theorem pyFind_nil (sp : List Char) (h : sp ≠ []) (start : Nat) :
    pyFind [] sp start = -1 := by
  unfold pyFind
  simp [List.find?, isPrefixOf_nil_eq_false sp h]

theorem splitBody_Xa_fixedpoint :
    splitBody "Xa".toList ['X'] 1 ⟨0, 0, 0⟩ = ([[]], ⟨0, 0, 0⟩) := by decide

/-! ### Claim theorems for the chunker -/

/-- Claim C1 (code bug): the round-trip `concatenate ∘ chunker = id` claimed
by the spec fails on the code.  On `text = "a\nX\nbXc\nd"` with
`maxLines = 3` and `splitAt = "X"` the generator terminates after yielding
the chunks `"a\nX\nb"`, `""`, `"X\nbXc\nd"`, whose concatenation
`"a\nX\nbX\nbXc\nd"` duplicates the segment `"X\nb"` and differs from the
input: when the newline scan of `split_big_snippet` returns `-1`, the
marker search restarts from index `0` and moves `r0` backwards. -/
theorem c1_roundtrip_code_bug :
    chunkerYields "a\nX\nbXc\nd".toList ['X'] 3
      ["a\nX\nb".toList, [], "X\nbXc\nd".toList]
    ∧ ["a\nX\nb".toList, [], "X\nbXc\nd".toList].flatten ≠ "a\nX\nbXc\nd".toList :=
  ⟨⟨20, by decide⟩, by decide⟩

/-- Claim C2 (code bug): the chunker is not always finite.  On
`text = "Xa"`, `maxLines = 1`, `splitAt = "X"` the loop state returns to
`⟨0, 0, 0⟩` after every iteration, each iteration yielding the empty chunk:
however much fuel the loop is given, it has yielded one empty chunk per
iteration and is still running, so the Python generator yields `""`
forever and never terminates. -/
theorem c2_nontermination_code_bug (fuel : Nat) :
    split_big_snippet "Xa".toList ['X'] 1 fuel
      = (List.replicate fuel [], some ⟨0, 0, 0⟩) := by
  unfold split_big_snippet
  induction fuel with
  | zero => rfl
  | succ f ih =>
    rw [splitRun, if_neg (by decide), splitBody_Xa_fixedpoint]
    simp only [ih]
    rfl

/-- Claim C3 (counterexample): on `"AAA\n\n\nBBB\n\n\nCCC"` with
`maxLines = 1` and `splitAt = "\n\n\n"` the chunker does not yield the
three chunks `["AAA", "\n\nBBB", "\n\nCCC"]` claimed by the spec: it
terminates yielding the two chunks `["AAA\n\n\nBBB", "\n\n\nCCC"]`
(the first marker occurrence, at index 3, is skipped because the marker
search starts at the newline position plus one, and each later chunk
starts with the full marker, not after its first character). -/
theorem c3_boundary_counterexample :
    chunkerYields "AAA\n\n\nBBB\n\n\nCCC".toList "\n\n\n".toList 1
      ["AAA\n\n\nBBB".toList, "\n\n\nCCC".toList]
    ∧ ["AAA\n\n\nBBB".toList, "\n\n\nCCC".toList]
        ≠ ["AAA".toList, "\n\nBBB".toList, "\n\nCCC".toList] :=
  ⟨⟨20, by decide⟩, by decide⟩

/-- Claim C3 (amended): on `"AAA\n\n\nBBB\n\n\nCCC"` with `maxLines = 1`
and `splitAt = "\n\n\n"` the chunker yields exactly the two chunks
`"AAA\n\n\nBBB"` and `"\n\n\nCCC"`, in that order. -/
theorem c3_boundary_amended (out : List (List Char)) :
    chunkerYields "AAA\n\n\nBBB\n\n\nCCC".toList "\n\n\n".toList 1 out
      ↔ out = ["AAA\n\n\nBBB".toList, "\n\n\nCCC".toList] := by
  constructor
  · intro h
    exact chunkerYields_unique _ _ _ _ _ h ⟨20, by decide⟩
  · intro h
    exact h ▸ ⟨20, by decide⟩

/-- Claim C3 (amended, witness): the amended theorem instantiated at the
actual output. -/
theorem c3_boundary_amended_witness :
    chunkerYields "AAA\n\n\nBBB\n\n\nCCC".toList "\n\n\n".toList 1
      ["AAA\n\n\nBBB".toList, "\n\n\nCCC".toList] :=
  (c3_boundary_amended _).mpr rfl

/-- Claim C10 (confirmed): for every `maxLines ≥ 1` and non-empty boundary
marker, the chunker applied to the empty string yields exactly one chunk,
the empty string. -/
theorem c10_empty_input (m : Nat) (sp : List Char) (_hm : 1 ≤ m)
    (hsp : sp ≠ []) : chunkerYields [] sp m [[]] := by
  have hbody : splitBody [] sp m ⟨0, 0, 0⟩
      = ([[]], ⟨if m ≤ 2 then 0 else 1, 0, -1⟩) := by
    simp only [splitBody, pyFind_nil sp hsp, pyFind_nil ['\n'] (by decide)]
    by_cases h2 : m ≤ 2
    · simp [h2]
    · simp [h2, show ¬ m ≤ 0 + 1 + 1 by omega]
  refine ⟨0 + 1 + 1, ?_⟩
  unfold splitAll split_big_snippet
  rw [splitRun, if_neg (by decide), hbody]
  simp only
  rw [splitRun, if_pos rfl]
  rfl

/-- Claim C10 (witness): the empty input, `maxLines = 1`, marker `"\n\n\n"`. -/
theorem c10_empty_input_witness : chunkerYields [] "\n\n\n".toList 1 [[]] :=
  c10_empty_input 1 "\n\n\n".toList (by decide) (by decide)

/-! ### Claim C5: LineNum.next -/

/-- Claim C5 (counterexample): with empty delimiters and the counter at 0,
`LineNum.next` returns `"    1 "` — the line number rendered by Python's
`"% 5i "`, space-padded and right-aligned — and not the zero-padded
`"00001 "` form `open ++ zero-padded(5) ++ " " ++ close` the claim
describes. -/
theorem c5_linenum_counterexample :
    (LineNum.next ⟨[], [], 0⟩).1 = "    1 ".toList
    ∧ "    1 ".toList ≠ ([] : List Char) ++ zeroPad5Spec 1 ++ ' ' :: [] :=
  ⟨by decide, by decide⟩

/-- Claim C5 (amended): every call to `LineNum.next` increments the counter
by exactly one, and the `j`-th of `k` sequential calls on a counter whose
line number starts at `l.lineno` returns the style-open string, the
number `l.lineno + j` space-padded to width 5 (right-aligned, per Python's
`"% 5i"`), a space, and the style-close string. -/
theorem c5_linenum_amended (k : Nat) (l : LineNum) :
    (iterNext l k).2 = ⟨l.begin, l.end_, l.lineno + k⟩
    ∧ (iterNext l k).1 = (consecFrom (l.lineno + 1) k).map
        (fun n => l.begin ++ spacePad5 n ++ ' ' :: l.end_) := by
  induction k generalizing l with
  | zero =>
    refine ⟨?_, rfl⟩
    simp [iterNext]
  | succ j ih =>
    have hnext2 : (LineNum.next l).2 = ⟨l.begin, l.end_, l.lineno + 1⟩ := rfl
    obtain ⟨ih1, ih2⟩ := ih ⟨l.begin, l.end_, l.lineno + 1⟩
    refine ⟨?_, ?_⟩
    · show (iterNext (LineNum.next l).2 j).2 = _
      rw [hnext2, ih1]
      congr 1
      push_cast
      ring
    · show (LineNum.next l).1 :: (iterNext (LineNum.next l).2 j).1 = _
      rw [hnext2, ih2, consecFrom, List.map_cons]
      rfl

/-! ### Lemmas about Python replace, and claim C6 -/

theorem replTail_skip (old new : List Char) :
    ∀ (xs s : List Char), replTail old new xs.length (xs ++ s) = replTail old new 0 s := by
  intro xs
  induction xs with
  | nil => intro s; rfl
  | cons c cs ih => intro s; exact ih s

theorem replTail_match (old new s : List Char) (h : old ≠ []) :
    replTail old new 0 (old ++ s) = new ++ replTail old new 0 s := by
  cases old with
  | nil => exact absurd rfl h
  | cons c os =>
    rw [List.cons_append, replTail,
      if_pos ⟨h, List.isPrefixOf_iff_prefix.mpr (List.prefix_append _ _)⟩]
    simp [replTail_skip]

theorem replTail_cons_no_match (old new : List Char) (c : Char) (s : List Char)
    (h : old.isPrefixOf (c :: s) = false) :
    replTail old new 0 (c :: s) = c :: replTail old new 0 s := by
  rw [replTail, if_neg]
  intro hc
  rw [hc.2] at h
  exact absurd h (by decide)

theorem replTail_block (old new : List Char) :
    ∀ (blk s : List Char),
      (∀ j, j < blk.length → old.isPrefixOf (blk.drop j ++ s) = false) →
      replTail old new 0 (blk ++ s) = blk ++ replTail old new 0 s := by
  intro blk
  induction blk with
  | nil => intro s _; rfl
  | cons c cs ih =>
    intro s h
    rw [List.cons_append,
      replTail_cons_no_match old new c (cs ++ s) (h 0 (Nat.succ_pos _)),
      ih s (fun j hj => h (j + 1) (Nat.succ_lt_succ hj))]
    rfl

theorem isPrefixOf_single_eq_false (a c : Char) (cs : List Char) (hc : ¬ c = a) :
    [a].isPrefixOf (c :: cs) = false := by
  simp [List.isPrefixOf]
  exact fun h => hc h.symm

theorem replTail_single (a : Char) (new : List Char) :
    ∀ s, replTail [a] new 0 s = expand (fun c => if c = a then new else [c]) s := by
  intro s
  induction s with
  | nil => rfl
  | cons c cs ih =>
    simp only [expand]
    by_cases hc : c = a
    · subst hc
      rw [show (c :: cs) = [c] ++ cs from rfl, replTail_match _ _ _ (by simp), ih,
        if_pos rfl]
    · rw [replTail_cons_no_match _ _ _ _ (isPrefixOf_single_eq_false a c cs hc), ih,
        if_neg hc]
      rfl

theorem expand_append (f : Char → List Char) :
    ∀ (a b : List Char), expand f (a ++ b) = expand f a ++ expand f b := by
  intro a b
  induction a with
  | nil => rfl
  | cons c cs ih => rw [List.cons_append, expand, expand, ih, List.append_assoc]

theorem escapeSentinels_eq_expand (s : List Char) :
    escapeSentinels s = expand escChar s := by
  unfold escapeSentinels pyReplace
  rw [show "&".toList = ['&'] from rfl, show "<".toList = ['<'] from rfl,
    replTail_single, replTail_single]
  induction s with
  | nil => rfl
  | cons c cs ih =>
    simp only [expand, expand_append, ih]
    congr 1
    by_cases hamp : c = '&'
    · subst hamp; rfl
    · by_cases hlt : c = '<'
      · subst hlt; rfl
      · simp [escChar, expand, hamp, hlt]

theorem not_mem_tail {c : Char} {a : Char} {t : List Char} (h : a ∉ c :: t) : a ∉ t :=
  fun hm => h (List.mem_cons_of_mem _ hm)

theorem not_infix_tail {p : List Char} {c : Char} {t : List Char}
    (h : ¬ p <:+: c :: t) : ¬ p <:+: t := by
  intro hin
  obtain ⟨s, u, he⟩ := hin
  exact h ⟨c :: s, u, by rw [← he]; rfl⟩

/-- If `t` has no underscore and no `"AMP"` substring, then `"AMP__"` is
not an initial segment of the sentinel-escaped form of `t`. -/
theorem noPref_AMPus : ∀ (t : List Char), '_' ∉ t → ¬ ("AMP".toList <:+: t) →
    ("AMP__".toList).isPrefixOf (expand escChar t) = false := by
  intro t hu hinf
  match t with
  | [] => rfl
  | c :: t1 =>
    rw [expand]
    by_cases hA : c = 'A'
    · subst hA
      rw [show escChar 'A' = ['A'] from rfl]
      match t1 with
      | [] => rfl
      | d :: t2 =>
        rw [expand]
        by_cases hM : d = 'M'
        · subst hM
          rw [show escChar 'M' = ['M'] from rfl]
          match t2 with
          | [] => rfl
          | e :: t3 =>
            by_cases hP : e = 'P'
            · subst hP
              exact absurd ⟨[], t3, rfl⟩ hinf
            · rw [expand]
              by_cases hAmp : e = '&'
              · subst hAmp; simp [escChar, List.isPrefixOf]
              · by_cases hLt : e = '<'
                · subst hLt; simp [escChar, List.isPrefixOf]
                · rw [show escChar e = [e] from by simp [escChar, hAmp, hLt]]
                  have hPe : ('P' == e) = false :=
                    beq_eq_false_iff_ne.mpr (fun h => hP h.symm)
                  simp [List.isPrefixOf, hPe]
        · by_cases hAmp : d = '&'
          · subst hAmp; simp [escChar, List.isPrefixOf]
          · by_cases hLt : d = '<'
            · subst hLt; simp [escChar, List.isPrefixOf]
            · rw [show escChar d = [d] from by simp [escChar, hAmp, hLt]]
              have hMd : ('M' == d) = false :=
                beq_eq_false_iff_ne.mpr (fun h => hM h.symm)
              simp [List.isPrefixOf, hMd]
    · by_cases hAmp : c = '&'
      · subst hAmp; simp [escChar, List.isPrefixOf]
      · by_cases hLt : c = '<'
        · subst hLt; simp [escChar, List.isPrefixOf]
        · rw [show escChar c = [c] from by simp [escChar, hAmp, hLt]]
          have hAc : ('A' == c) = false :=
            beq_eq_false_iff_ne.mpr (fun h => hA h.symm)
          simp [List.isPrefixOf, hAc]

/-- If `t` has no underscore, then `"_AMP__"` is not an initial segment of
the sentinel-escaped form of `t`. -/
theorem noPref_usAMP : ∀ (t : List Char), '_' ∉ t →
    ("_AMP__".toList).isPrefixOf (expand escChar t) = false := by
  intro t hu
  match t with
  | [] => rfl
  | c :: t1 =>
    rw [expand]
    by_cases hAmp : c = '&'
    · subst hAmp; simp [escChar, List.isPrefixOf]
    · by_cases hLt : c = '<'
      · subst hLt; simp [escChar, List.isPrefixOf]
      · rw [show escChar c = [c] from by simp [escChar, hAmp, hLt]]
        have hc : c ≠ '_' := fun h => hu (h ▸ List.mem_cons_self _ _)
        have hcu : ('_' == c) = false :=
          beq_eq_false_iff_ne.mpr (fun h => hc h.symm)
        simp [List.isPrefixOf, hcu]

/-- First unescape pass: over a sentinel-escaped text whose source had no
underscore and no `"AMP"` substring, replacing `"__AMP__"` by `"&amp;"`
rewrites exactly the sentinels that came from `&`. -/
theorem unescape_amp_stage : ∀ (t : List Char), '_' ∉ t → ¬ ("AMP".toList <:+: t) →
    replTail "__AMP__".toList "&amp;".toList 0 (expand escChar t) = expand escChar1 t := by
  intro t
  induction t with
  | nil => intro _ _; rfl
  | cons c t1 ih =>
    intro hu hinf
    have hu1 : '_' ∉ t1 := not_mem_tail hu
    have hinf1 : ¬ ("AMP".toList <:+: t1) := not_infix_tail hinf
    rw [expand, expand]
    by_cases hAmp : c = '&'
    · subst hAmp
      rw [show escChar '&' = "__AMP__".toList from rfl,
        replTail_match _ _ _ (by decide), ih hu1 hinf1]
      rfl
    · by_cases hLt : c = '<'
      · subst hLt
        rw [show escChar '<' = "__LT__".toList from rfl,
          replTail_block _ _ _ _ ?_, ih hu1 hinf1]
        · rfl
        · intro j hj
          rw [show ("__LT__".toList).length = 6 from rfl] at hj
          interval_cases j
          · simp [List.isPrefixOf]
          · simp [List.isPrefixOf]
          · simp [List.isPrefixOf]
          · simp [List.isPrefixOf]
          · simpa [List.isPrefixOf] using noPref_AMPus t1 hu1 hinf1
          · simpa [List.isPrefixOf] using noPref_usAMP t1 hu1
      · rw [show escChar c = [c] from by simp [escChar, hAmp, hLt],
          show escChar1 c = [c] from by simp [escChar1, hAmp, hLt]]
        have hc : c ≠ '_' := fun h => hu (h ▸ List.mem_cons_self _ _)
        have hcu : ('_' == c) = false :=
          beq_eq_false_iff_ne.mpr (fun h => hc h.symm)
        rw [List.singleton_append, List.singleton_append,
          replTail_cons_no_match _ _ _ _ (by simp [List.isPrefixOf, hcu]),
          ih hu1 hinf1]

/-- Second unescape pass: replacing `"__LT__"` by `"&lt;"` rewrites exactly
the sentinels that came from `<`, producing the markup-escaped form. -/
theorem unescape_lt_stage : ∀ (t : List Char), '_' ∉ t →
    replTail "__LT__".toList "&lt;".toList 0 (expand escChar1 t) = escapedFormSpec t := by
  intro t
  induction t with
  | nil => intro _; rfl
  | cons c t1 ih =>
    intro hu
    have hu1 : '_' ∉ t1 := not_mem_tail hu
    rw [expand, show escapedFormSpec (c :: t1) =
      (if c = '&' then "&amp;".toList else if c = '<' then "&lt;".toList else [c])
        ++ escapedFormSpec t1 from rfl]
    by_cases hAmp : c = '&'
    · subst hAmp
      rw [show escChar1 '&' = "&amp;".toList from rfl,
        replTail_block _ _ _ _ ?_, ih hu1, if_pos rfl]
      intro j hj
      rw [show ("&amp;".toList).length = 5 from rfl] at hj
      interval_cases j
      · simp [List.isPrefixOf]
      · simp [List.isPrefixOf]
      · simp [List.isPrefixOf]
      · simp [List.isPrefixOf]
      · simp [List.isPrefixOf]
    · by_cases hLt : c = '<'
      · subst hLt
        rw [show escChar1 '<' = "__LT__".toList from rfl,
          replTail_match _ _ _ (by decide), ih hu1, if_neg hAmp, if_pos rfl]
      · rw [show escChar1 c = [c] from by simp [escChar1, hAmp, hLt],
          if_neg hAmp, if_neg hLt]
        have hc : c ≠ '_' := fun h => hu (h ▸ List.mem_cons_self _ _)
        have hcu : ('_' == c) = false :=
          beq_eq_false_iff_ne.mpr (fun h => hc h.symm)
        rw [List.singleton_append,
          replTail_cons_no_match _ _ _ _ (by simp [List.isPrefixOf, hcu]),
          ih hu1, List.singleton_append]

/-! ### Claim C6: escaping round-trip -/

/-- Claim C6 (counterexample): on the text `"&"` — which contains an
ampersand — the unescape substitution applied after the escape substitution
returns `"&amp;"`, not the original text: the sentinels are rewritten to
the markup-escaped entities, so `unescape(escape(text)) ≠ text`. -/
theorem c6_escape_counterexample :
    unescapeSentinels (escapeSentinels ['&']) = "&amp;".toList
    ∧ "&amp;".toList ≠ ['&'] :=
  ⟨by decide, by decide⟩

/-- Claim C6 (amended): for every text containing ampersand or less-than
characters — provided it contains no underscore character and no `"AMP"`
substring, which would collide with the sentinel encoding — applying the
unescape substitution after the escape substitution yields the text with
each `&` replaced by `&amp;` and each `<` replaced by `&lt;` (the
markup-escaped form), not the original text. -/
theorem c6_escape_amended (t : List Char) (h1 : '_' ∉ t)
    (h2 : ¬ ("AMP".toList <:+: t)) (_h3 : '&' ∈ t ∨ '<' ∈ t) :
    unescapeSentinels (escapeSentinels t) = escapedFormSpec t := by
  rw [escapeSentinels_eq_expand]
  unfold unescapeSentinels pyReplace
  rw [unescape_amp_stage t h1 h2, unescape_lt_stage t h1]

/-- Claim C6 (amended, witness): the text `"a&b<c"`. -/
theorem c6_escape_amended_witness :
    '_' ∉ "a&b<c".toList ∧ ¬ ("AMP".toList <:+: "a&b<c".toList)
    ∧ unescapeSentinels (escapeSentinels "a&b<c".toList)
        = escapedFormSpec "a&b<c".toList :=
  ⟨by decide, by decide,
    c6_escape_amended "a&b<c".toList (by decide) (by decide) (Or.inl (by decide))⟩

/-! ### Lemmas about line-number traces, claims C8 and C4 -/

theorem consecFrom_length (a : Int) : ∀ n, (consecFrom a n).length = n := by
  intro n
  induction n generalizing a with
  | zero => rfl
  | succ m ih => simp [consecFrom, ih]

theorem consecFrom_append (a : Int) (m n : Nat) :
    consecFrom a (m + n) = consecFrom a m ++ consecFrom (a + m) n := by
  induction m generalizing a with
  | zero => simp [consecFrom]
  | succ j ih =>
    rw [show j + 1 + n = (j + n) + 1 from by omega, consecFrom, consecFrom,
      ih (a + 1), List.cons_append]
    congr 3
    push_cast
    ring

theorem annotateGo_spec : ∀ (ps : List (List Char)) (l : LineNum),
    (annotateGo l ps).2.1 = ⟨l.begin, l.end_, l.lineno + ps.length⟩
    ∧ (annotateGo l ps).2.2 = consecFrom (l.lineno + 1) ps.length := by
  intro ps
  induction ps with
  | nil =>
    intro l
    refine ⟨?_, rfl⟩
    simp [annotateGo]
  | cons p ps ih =>
    intro l
    obtain ⟨ih1, ih2⟩ := ih ⟨l.begin, l.end_, l.lineno + 1⟩
    have hn : (LineNum.next l).2 = ⟨l.begin, l.end_, l.lineno + 1⟩ := rfl
    constructor
    · show (annotateGo (LineNum.next l).2 ps).2.1 = _
      rw [hn, ih1]
      congr 1
      simp only [List.length_cons]
      push_cast
      ring
    · show (LineNum.next l).2.lineno :: (annotateGo (LineNum.next l).2 ps).2.2 = _
      rw [hn, ih2, show (List.length (p :: ps)) = ps.length + 1 from rfl, consecFrom]

theorem annotateT_spec (l : LineNum) (text : List Char) :
    ∃ k : Nat, 0 < k
      ∧ (annotateT l text).2.2 = consecFrom (l.lineno + 1) k
      ∧ (annotateT l text).2.1 = ⟨l.begin, l.end_, l.lineno + k⟩ := by
  unfold annotateT
  by_cases hc : text.contains '\n'
  · rw [if_pos hc]
    obtain ⟨h1, h2⟩ := annotateGo_spec (pySplitLines text) ⟨l.begin, l.end_, l.lineno + 1⟩
    refine ⟨(pySplitLines text).length + 1, Nat.succ_pos _, ?_, ?_⟩
    · show (LineNum.next l).2.lineno
          :: (annotateGo (LineNum.next l).2 (pySplitLines text)).2.2 = _
      rw [show (LineNum.next l).2 = ⟨l.begin, l.end_, l.lineno + 1⟩ from rfl, h2]
      rfl
    · show (annotateGo (LineNum.next l).2 (pySplitLines text)).2.1 = _
      rw [show (LineNum.next l).2 = ⟨l.begin, l.end_, l.lineno + 1⟩ from rfl, h1]
      congr 1
      push_cast
      ring
  · rw [if_neg hc]
    refine ⟨1, Nat.one_pos, rfl, ?_⟩
    show (LineNum.next l).2 = _
    rw [show (LineNum.next l).2 = ⟨l.begin, l.end_, l.lineno + 1⟩ from rfl]
    norm_num

theorem annotateIf_spec (linenos : Bool) (l : LineNum) (t : List Char) :
    ∃ k : Nat,
      (if linenos then annotateT l t else (t, l, ([] : List Int))).2.2
        = consecFrom (l.lineno + 1) k
      ∧ (if linenos then annotateT l t else (t, l, ([] : List Int))).2.1
        = ⟨l.begin, l.end_, l.lineno + k⟩ := by
  cases linenos with
  | false =>
    refine ⟨0, by simp [consecFrom], ?_⟩
    simp
  | true =>
    obtain ⟨k, _, h1, h2⟩ := annotateT_spec l t
    exact ⟨k, by simpa using h1, by simpa using h2⟩

theorem finishChunk_spec (cc : List Char) (title : Option (List Char))
    (bgn fin : List Char) (a : List Char × LineNum × List Int)
    (out : List Char) (l2 : LineNum) (ns : List Int)
    (h : finishChunk cc title bgn fin a = some (out, l2, ns)) :
    l2 = a.2.1 ∧ ns = a.2.2 := by
  unfold finishChunk at h
  split at h
  · exact absurd h (by simp)
  · simp only [Option.some.injEq, Prod.mk.injEq] at h
    exact ⟨h.2.1.symm, h.2.2.symm⟩

theorem finishChunk_title (cc t : List Char) (bgn fin : List Char)
    (a : List Char × LineNum × List Int) (out : List Char) (l2 : LineNum)
    (ns : List Int) (h : finishChunk cc (some t) bgn fin a = some (out, l2, ns))
    (ht : t ≠ []) : titleStr cc t <+: out := by
  unfold finishChunk at h
  split at h
  · exact absurd h (by simp)
  · simp only [Option.some.injEq, Prod.mk.injEq] at h
    rw [← h.1]
    show titleStr cc t <+: applyTitle cc (some t) _
    simp only [applyTitle, if_neg ht]
    exact List.prefix_append _ _

theorem formatChunk_spec (hl : List Char → List Char) (cc : List Char)
    (title : Option (List Char)) (linenos : Bool) (l : LineNum)
    (snippet out : List Char) (l2 : LineNum) (ns : List Int)
    (h : formatChunk hl cc title linenos l snippet = some (out, l2, ns)) :
    ∃ k : Nat, ns = consecFrom (l.lineno + 1) k
      ∧ l2 = ⟨l.begin, l.end_, l.lineno + k⟩ := by
  unfold formatChunk at h
  obtain ⟨h2, h3⟩ := finishChunk_spec _ _ _ _ _ _ _ _ h
  obtain ⟨k, hA, hB⟩ := annotateIf_spec linenos l _
  exact ⟨k, h3 ▸ hA, h2 ▸ hB⟩

theorem formatChunks_spec (hl : List Char → List Char) (cc : List Char)
    (title : Option (List Char)) (linenos : Bool) :
    ∀ (cs : List (List Char)) (l : LineNum) (ts : List (List Char))
      (l2 : LineNum) (ns : List Int),
      formatChunks hl cc title linenos l cs = some (ts, l2, ns) →
      ∃ k : Nat, ns = consecFrom (l.lineno + 1) k
        ∧ l2 = ⟨l.begin, l.end_, l.lineno + k⟩ := by
  intro cs
  induction cs with
  | nil =>
    intro l ts l2 ns h
    simp only [formatChunks, Option.some.injEq, Prod.mk.injEq] at h
    obtain ⟨h1, h2, h3⟩ := h
    refine ⟨0, h3 ▸ rfl, h2 ▸ ?_⟩
    simp
  | cons c cs ih =>
    intro l ts l2 ns h
    rw [formatChunks] at h
    rcases hfc : formatChunk hl cc title linenos l c with _ | ⟨⟨t, l1, ns1⟩⟩ <;>
      rw [hfc] at h <;> dsimp only at h
    · exact absurd h (by simp)
    · rcases hrest : formatChunks hl cc title linenos l1 cs with _ | ⟨⟨ts2, l3, ms⟩⟩ <;>
        rw [hrest] at h <;> dsimp only at h
      · exact absurd h (by simp)
      · simp only [Option.some.injEq, Prod.mk.injEq] at h
        obtain ⟨h1, h2, h3⟩ := h
        obtain ⟨k1, hA1, hA2⟩ := formatChunk_spec hl cc title linenos l c t l1 ns1 hfc
        obtain ⟨k2, hB1, hB2⟩ := ih l1 ts2 l3 ms hrest
        refine ⟨k1 + k2, ?_, ?_⟩
        · rw [← h3, hA1, hB1, hA2]
          show consecFrom (l.lineno + 1) k1 ++ consecFrom (l.lineno + ↑k1 + 1) k2 = _
          rw [consecFrom_append]
          congr 1
          ring
        · rw [← h2, hB2, hA2]
          show (⟨l.begin, l.end_, l.lineno + ↑k1 + ↑k2⟩ : LineNum) = _
          congr 1
          push_cast
          ring

/-- Claim C8 (confirmed): with line annotation enabled, the line numbers
emitted over one whole `format_text` invocation — across all chunks, in
emission order — form the sequence `startline, startline + 1, ...`:
strictly increasing by exactly 1 at each step, starting at `startline`. -/
theorem c8_monotonic_numbering (hl : List Char → List Char)
    (cc input : List Char) (title : Option (List Char)) (sl : Int)
    (m : Nat) (sp : List Char) (fuel : Nat) (ts : List (List Char))
    (ns : List Int)
    (h : format_text hl cc input title true sl m sp fuel = some (ts, ns)) :
    ns = consecFrom sl ns.length := by
  unfold format_text at h
  rcases hs : splitAll input sp m fuel with _ | chunks <;> rw [hs] at h <;>
    dsimp only at h
  · exact absurd h (by simp)
  · rcases hfc : formatChunks hl cc title true
        ⟨"<span fgcolor=\"".toList ++ cc ++ "\">".toList, "</span>".toList, sl - 1⟩
        chunks with _ | ⟨⟨ts2, l3, ms⟩⟩ <;> rw [hfc] at h <;> dsimp only at h
    · exact absurd h (by simp)
    · simp only [Option.some.injEq, Prod.mk.injEq] at h
      obtain ⟨h1, h2⟩ := h
      obtain ⟨k, hB1, _⟩ := formatChunks_spec hl cc title true chunks _ ts2 l3 ms hfc
      rw [← h2, hB1]
      have hsl : sl - 1 + 1 = sl := by ring
      rw [hsl] at hB1 ⊢
      rw [consecFrom_length]

/-- Claim C8 (witness): formatting the one-line input `"A"` with
`startline = 1` emits exactly the line-number sequence `[1]`. -/
theorem c8_monotonic_numbering_witness :
    format_text id "c".toList "A".toList none true 1 3 "\n\n\n".toList 5
      = some (["<span fgcolor=\"c\">    1 </span>A".toList], [1])
    ∧ ([1] : List Int) = consecFrom 1 ([1] : List Int).length :=
  ⟨rfl, c8_monotonic_numbering id "c".toList "A".toList none 1 3
    "\n\n\n".toList 5 ["<span fgcolor=\"c\">    1 </span>A".toList] [1] rfl⟩

/-! ### Claim C4: the title banner -/

/-- Claim C4 (counterexample): with title `"T"` supplied, `format_text` on
`"AAA\n\n\nBBB\n\n\nCCC"` (two chunks, identity highlighter, no line
numbers) prepends the title banner to BOTH yielded chunks: the second
chunk also starts with the banner, contradicting the claim that only the
first chunk contains it — in the source the banner prepend sits inside the
per-snippet loop. -/
theorem c4_title_counterexample :
    format_text id "c".toList "AAA\n\n\nBBB\n\n\nCCC".toList
        (some "T".toList) false 1 1 "\n\n\n".toList 20
      = some ([titleStr "c".toList "T".toList ++ "AAA\n\n\nBBB".toList,
               titleStr "c".toList "T".toList ++ "\n\nCCC".toList], [])
    ∧ titleStr "c".toList "T".toList
        <+: titleStr "c".toList "T".toList ++ "\n\nCCC".toList :=
  ⟨rfl, List.prefix_append _ _⟩

/-- Claim C4 (amended): when a non-empty title is supplied to
`format_text`, EVERY yielded chunk contains the title banner (as a
prefix), not only the first: the banner prepend is executed once per
chunk. -/
theorem c4_title_amended (hl : List Char → List Char) (cc input t : List Char)
    (linenos : Bool) (sl : Int) (m : Nat) (sp : List Char) (fuel : Nat)
    (ts : List (List Char)) (ns : List Int)
    (h : format_text hl cc input (some t) linenos sl m sp fuel = some (ts, ns))
    (ht : t ≠ []) : ∀ c ∈ ts, titleStr cc t <+: c := by
  have main : ∀ (cs : List (List Char)) (l : LineNum) (ts1 : List (List Char))
      (l2 : LineNum) (ns1 : List Int),
      formatChunks hl cc (some t) linenos l cs = some (ts1, l2, ns1) →
      ∀ c ∈ ts1, titleStr cc t <+: c := by
    intro cs
    induction cs with
    | nil =>
      intro l ts1 l2 ns1 hh
      simp only [formatChunks, Option.some.injEq, Prod.mk.injEq] at hh
      rw [← hh.1]
      intro c hc
      exact absurd hc (List.not_mem_nil c)
    | cons d ds ih =>
      intro l ts1 l2 ns1 hh
      rw [formatChunks] at hh
      rcases hfc : formatChunk hl cc (some t) linenos l d with _ | ⟨⟨o, l1, ks⟩⟩ <;>
        rw [hfc] at hh <;> dsimp only at hh
      · exact absurd hh (by simp)
      · rcases hrest : formatChunks hl cc (some t) linenos l1 ds with
          _ | ⟨⟨ts2, l3, ms⟩⟩ <;> rw [hrest] at hh <;> dsimp only at hh
        · exact absurd hh (by simp)
        · simp only [Option.some.injEq, Prod.mk.injEq] at hh
          rw [← hh.1]
          intro c hc
          rcases List.mem_cons.mp hc with hc1 | hc2
          · subst hc1
            unfold formatChunk at hfc
            exact finishChunk_title _ _ _ _ _ _ _ _ hfc ht
          · exact ih l1 ts2 l3 ms hrest c hc2
  unfold format_text at h
  rcases hs : splitAll input sp m fuel with _ | chunks <;> rw [hs] at h <;>
    dsimp only at h
  · exact absurd h (by simp)
  · rcases hfc : formatChunks hl cc (some t) linenos
        ⟨"<span fgcolor=\"".toList ++ cc ++ "\">".toList, "</span>".toList, sl - 1⟩
        chunks with _ | ⟨⟨ts2, l3, ms⟩⟩ <;> rw [hfc] at h <;> dsimp only at h
    · exact absurd h (by simp)
    · simp only [Option.some.injEq, Prod.mk.injEq] at h
      rw [← h.1]
      exact main chunks _ ts2 l3 ms hfc

/-- Claim C4 (amended, witness): with title `"U"` and line numbers on, the
single chunk of input `"A"` starts with the banner. -/
theorem c4_title_amended_witness :
    titleStr "c".toList "U".toList <+:
      titleStr "c".toList "U".toList ++ "<span fgcolor=\"c\">    1 </span>A".toList :=
  c4_title_amended id "c".toList "A".toList "U".toList true 1 3 "\n\n\n".toList 5
    [titleStr "c".toList "U".toList ++ "<span fgcolor=\"c\">    1 </span>A".toList]
    [1] rfl (by decide)
    (titleStr "c".toList "U".toList ++ "<span fgcolor=\"c\">    1 </span>A".toList)
    (by simp)

/-! ### Lemmas about the markup formatter, claims C7 and C9 -/

theorem resolve_isSome (styles : Styles) :
    ∀ (t k : Kind), resolve styles t = some k → (styles k).isSome = true := by
  intro t
  induction t with
  | nil =>
    intro k h
    rw [resolve] at h
    by_cases hs : (styles []).isSome = true
    · rw [if_pos hs] at h
      injection h with he
      exact he ▸ hs
    · rw [if_neg hs] at h
      exact absurd h (by simp)
  | cons c ks ih =>
    intro k h
    rw [resolve] at h
    by_cases hs : (styles (c :: ks)).isSome = true
    · rw [if_pos hs] at h
      injection h with he
      exact he ▸ hs
    · rw [if_neg hs] at h
      exact ih k h

theorem resolve_self (styles : Styles) (k : Kind)
    (hs : (styles k).isSome = true) : resolve styles k = some k := by
  cases k with
  | nil => rw [resolve, if_pos hs]
  | cons c ks => rw [resolve, if_pos hs]

namespace PangoFormatter

theorem formatFold_append (styles : Styles) :
    ∀ (xs ys : List (Kind × List Char)) (s : FmtState),
      formatFold styles s (xs ++ ys)
        = (formatFold styles s xs).bind (fun s1 => formatFold styles s1 ys) := by
  intro xs
  induction xs with
  | nil => intro ys s; rfl
  | cons x xs ih =>
    intro ys s
    rw [List.cons_append, formatFold, formatFold]
    cases hstep : formatStep styles s x with
    | none => rfl
    | some s1 => exact ih ys s1

theorem formatFold_one (styles : Styles) (s : FmtState) (c : Kind × List Char) :
    formatFold styles s [c] = formatStep styles s c := by
  rw [formatFold]
  cases h : formatStep styles s c <;> rfl

theorem formatFold_pair (styles : Styles) (s : FmtState)
    (a b : Kind × List Char) :
    formatFold styles s [a, b]
      = (formatStep styles s a).bind (fun s1 => formatStep styles s1 b) := by
  rw [formatFold]
  cases h : formatStep styles s a with
  | none => rfl
  | some s1 => exact formatFold_one styles s1 b

theorem formatStep_pair (styles : Styles) (t1 t2 k : Kind) (v1 v2 : List Char)
    (h1 : resolve styles t1 = some k) (h2 : resolve styles t2 = some k)
    (s : FmtState) :
    (formatStep styles s (t1, v1)).bind (fun s1 => formatStep styles s1 (t2, v2))
      = formatStep styles s (k, v1 ++ v2) := by
  have hk : resolve styles k = some k :=
    resolve_self styles k (resolve_isSome styles t1 k h1)
  unfold formatStep
  dsimp only
  simp only [h1, h2, hk]
  by_cases hlt : s.lasttype = some k
  · simp [hlt, List.append_assoc]
  · by_cases hlv : s.lastval = []
    · simp [hlt, hlv]
    · cases hb : s.lasttype.bind styles with
      | none => simp [hlt, hlv, hb]
      | some be =>
        obtain ⟨b, e⟩ := be
        simp [hlt, hlv, hb, List.append_assoc]

end PangoFormatter

/-- Claim C7 (confirmed): for every style table and token sequence, two
adjacent tokens whose kinds resolve to the same registered kind `k`
produce exactly the same markup as the single token `(k, v1 ++ v2)` in
their place — runs of identical resolved kind are coalesced. -/
theorem c7_coalescing (styles : Styles) (pre suf : List (Kind × List Char))
    (t1 t2 k : Kind) (v1 v2 : List Char)
    (h1 : resolve styles t1 = some k) (h2 : resolve styles t2 = some k) :
    PangoFormatter.format styles (pre ++ (t1, v1) :: (t2, v2) :: suf)
      = PangoFormatter.format styles (pre ++ (k, v1 ++ v2) :: suf) := by
  unfold PangoFormatter.format
  have e : PangoFormatter.formatFold styles ⟨[], [], none⟩ (pre ++ (t1, v1) :: (t2, v2) :: suf)
      = PangoFormatter.formatFold styles ⟨[], [], none⟩ (pre ++ (k, v1 ++ v2) :: suf) := by
    rw [show ((t1, v1) :: (t2, v2) :: suf : List (Kind × List Char))
          = [(t1, v1), (t2, v2)] ++ suf from rfl,
        show ((k, v1 ++ v2) :: suf : List (Kind × List Char))
          = [(k, v1 ++ v2)] ++ suf from rfl,
        PangoFormatter.formatFold_append, PangoFormatter.formatFold_append]
    cases hpre : PangoFormatter.formatFold styles ⟨[], [], none⟩ pre with
    | none => rfl
    | some s1 =>
      dsimp only [Option.bind]
      rw [PangoFormatter.formatFold_append, PangoFormatter.formatFold_append,
        PangoFormatter.formatFold_pair, PangoFormatter.formatFold_one,
        PangoFormatter.formatStep_pair styles t1 t2 k v1 v2 h1 h2 s1]
  rw [e]

/-- Claim C7 (witness): with only the root kind registered, the token
sequence `[("kw", "ab"), ("str", "cd")]` — both kinds resolving to the
root — formats identically to the single root token `("", "abcd")`. -/
theorem c7_coalescing_witness :
    PangoFormatter.format
        (fun kk => if kk = ([] : Kind) then some ("[".toList, "]".toList) else none)
        [((["kw"] : Kind), "ab".toList), ((["str"] : Kind), "cd".toList)]
      = PangoFormatter.format
        (fun kk => if kk = ([] : Kind) then some ("[".toList, "]".toList) else none)
        [(([] : Kind), "abcd".toList)] :=
  c7_coalescing
    (fun kk => if kk = ([] : Kind) then some ("[".toList, "]".toList) else none)
    [] [] ["kw"] ["str"] [] "ab".toList "cd".toList rfl rfl

theorem resolve_none_of_no_style (styles : Styles) :
    ∀ (t : Kind), (∀ a, a <:+ t → styles a = none) → resolve styles t = none := by
  intro t
  induction t with
  | nil =>
    intro h
    rw [resolve, h [] (List.suffix_refl _)]
    rfl
  | cons c ks ih =>
    intro h
    rw [resolve, h (c :: ks) (List.suffix_refl _)]
    simp only [Option.isSome_none, Bool.false_eq_true, if_false]
    exact ih (fun a ha => h a (ha.trans (List.suffix_cons c ks)))

theorem resolve_spec (styles : Styles) : ∀ (t a : Kind),
    resolve styles t = some a →
    a <:+ t ∧ (styles a).isSome = true
    ∧ ∀ b, b <:+ t → a <:+ b → b ≠ a → styles b = none := by
  intro t
  induction t with
  | nil =>
    intro a h
    rw [resolve] at h
    by_cases hs : (styles []).isSome = true
    · rw [if_pos hs] at h
      injection h with he
      subst he
      refine ⟨List.suffix_refl _, hs, ?_⟩
      intro b hb hab hne
      exact absurd (List.suffix_nil.mp hb) hne
    · rw [if_neg hs] at h
      exact absurd h (by simp)
  | cons c ks ih =>
    intro a h
    rw [resolve] at h
    by_cases hs : (styles (c :: ks)).isSome = true
    · rw [if_pos hs] at h
      injection h with he
      subst he
      refine ⟨List.suffix_refl _, hs, ?_⟩
      intro b hb hab hne
      exact absurd (hb.sublist.antisymm hab.sublist) hne
    · rw [if_neg hs] at h
      obtain ⟨hsuf, hsome, hmin⟩ := ih a h
      refine ⟨hsuf.trans (List.suffix_cons c ks), hsome, ?_⟩
      intro b hb hab hne
      rcases List.suffix_cons_iff.mp hb with hb1 | hb2
      · subst hb1
        exact Option.not_isSome_iff_eq_none.mp hs
      · exact hmin b hb2 hab hne

/-- Claim C9 (confirmed): style lookup walks up the ancestor chain — in the
leaf-first path encoding, ancestors of a kind are its suffixes — and
resolves to the nearest ancestor (possibly the kind itself) with a
registered entry: the resolved kind is an ancestor, is registered, and
every strictly nearer ancestor is unregistered.  When no ancestor at all
(the root included) is registered, `PangoFormatter.format` on any token
sequence containing that kind fails with an error (`none`, the Python
`AttributeError` on `None.parent`) and produces no markup output. -/
theorem c9_style_resolution (styles : Styles) (k : Kind) :
    (∀ (v : List Char) (pre suf : List (Kind × List Char)),
        (∀ a, a <:+ k → styles a = none) →
        PangoFormatter.format styles (pre ++ (k, v) :: suf) = none)
    ∧ (∀ a, resolve styles k = some a →
        a <:+ k ∧ (styles a).isSome = true
        ∧ ∀ b, b <:+ k → a <:+ b → b ≠ a → styles b = none) := by
  constructor
  · intro v pre suf hnone
    unfold PangoFormatter.format
    rw [show ((k, v) :: suf : List (Kind × List Char)) = [(k, v)] ++ suf from rfl,
      PangoFormatter.formatFold_append]
    cases hpre : PangoFormatter.formatFold styles ⟨[], [], none⟩ pre with
    | none => rfl
    | some s1 =>
      dsimp only [Option.bind]
      rw [PangoFormatter.formatFold_append, PangoFormatter.formatFold_one]
      unfold PangoFormatter.formatStep
      dsimp only
      rw [resolve_none_of_no_style styles k hnone]
      rfl
  · exact fun a h => resolve_spec styles k a h

/-- Claim C9 (witness): with an empty style table, formatting the token
`("x", "A")` errors out producing no markup; and with only the root
registered, lookup of `"x"` resolves to the root, which is registered. -/
theorem c9_style_resolution_witness :
    PangoFormatter.format (fun _ => none) [((["x"] : Kind), "A".toList)] = none
    ∧ ((fun kk => if kk = ([] : Kind) then some ("<r>".toList, "</r>".toList)
          else none) ([] : Kind)).isSome = true :=
  ⟨(c9_style_resolution (fun _ => none) ["x"]).1 "A".toList [] [] (fun _ _ => rfl),
   ((c9_style_resolution
      (fun kk => if kk = ([] : Kind) then some ("<r>".toList, "</r>".toList)
        else none) ["x"]).2 [] rfl).2.1⟩

end Csnap
